import Mathlib

/-!
Shallow embedding of the in-browser vocal-extraction pipeline of
`src/components/VocalExtraction.tsx`, together with proofs of the spec's
claims about it.

Samples are modelled as exact rationals (`ℚ`); the JavaScript source works
on IEEE doubles, but every claim here is about the algorithmic structure
(recurrences, weights, gains, control flow), which the exact-arithmetic
model captures faithfully.  A channel buffer (`Float32Array`) is a
`List ℚ`; a decoded `AudioBuffer` is a `SampleMatrix`.
-/

namespace VocalExtraction

/-- A decoded audio buffer: a list of equal-length channel buffers plus a
sample rate, mirroring `AudioBuffer` (`numberOfChannels`, `length`,
`sampleRate`, `getChannelData`). -/
structure SampleMatrix where
  channels : List (List ℚ)
  sampleRate : ℕ
  deriving DecidableEq, Repr

/-! ## Stereo branch of `extractVocals` (lines 179–229)

First pass (lines 197–207): center and side channels.
Second pass (lines 209–229): the exponential smoothing loop with
`smoothingFactor = 0.3`. -/

/-- `smoothingFactor` constant of the source (line 210). -/
def smoothingFactor : ℚ := 3/10

/-- `centerChannel[i] = (left[i] + right[i]) / 2` (line 202). -/
def centerChannel (left right : List ℚ) : List ℚ :=
  List.zipWith (fun l r => (l + r) / 2) left right

/-- `sideChannelLeft[i] = left[i] - centerChannel[i]` (line 205). -/
def sideChannelLeft (left right : List ℚ) : List ℚ :=
  List.zipWith (fun l r => l - (l + r) / 2) left right

/-- `sideChannelRight[i] = right[i] - centerChannel[i]` (line 206). -/
def sideChannelRight (left right : List ℚ) : List ℚ :=
  List.zipWith (fun l r => r - (l + r) / 2) left right

/-- The body of the smoothing loop (lines 216–229): given the previous
output sample `prev`, each remaining input sample `x` produces
`prev * (1 - smoothingFactor) + x * smoothingFactor`. -/
def smoothFrom (prev : ℚ) : List ℚ → List ℚ
  | [] => []
  | x :: xs =>
      (prev * (1 - smoothingFactor) + x * smoothingFactor) ::
        smoothFrom (prev * (1 - smoothingFactor) + x * smoothingFactor) xs

/-- The whole smoothing pass on one channel: `y[0] = x[0]` (lines 211–214)
then the loop (lines 216–229). -/
def smoothChannel : List ℚ → List ℚ
  | [] => []
  | x :: xs => x :: smoothFrom x xs

/-- Stereo-branch separation (lines 179–229), pre-enhancement: returns
(vocalsLeft, vocalsRight, accompanimentLeft, accompanimentRight).  In the
source, `vocalsLeft` and `vocalsRight` run the identical recurrence on
`centerChannel`, so both are the smoothing of the center channel. -/
def stereoSeparate (left right : List ℚ) :
    List ℚ × List ℚ × List ℚ × List ℚ :=
  (smoothChannel (centerChannel left right),
   smoothChannel (centerChannel left right),
   smoothChannel (sideChannelLeft left right),
   smoothChannel (sideChannelRight left right))

/-! ## Spec-side smoothing (refinement target for C1)

The spec describes the smoothing as an index recurrence
`y[0] = x[0]`, `y[i] = y[i-1]*0.7 + x[i]*0.3` on a signal `x`. -/

/-- Modelled from the spec: causal exponential smoothing with coefficient
α = 0.3 as an index recurrence on a signal `ℕ → ℚ`. -/
def specSmooth (x : ℕ → ℚ) : ℕ → ℚ
  | 0 => x 0
  | i + 1 => specSmooth x i * (7/10) + x (i + 1) * (3/10)

/-- Helper recurrence: smoothing started from an explicit previous output
`prev`, used to relate `smoothFrom` to `specSmooth`. -/
def specSmoothFrom (prev : ℚ) (x : ℕ → ℚ) : ℕ → ℚ
  | 0 => prev * (7/10) + x 0 * (3/10)
  | i + 1 => specSmoothFrom prev x i * (7/10) + x (i + 1) * (3/10)

theorem specSmoothFrom_shift (prev : ℚ) (x : ℕ → ℚ) (i : ℕ) :
    specSmoothFrom prev x (i + 1) =
      specSmoothFrom (prev * (7/10) + x 0 * (3/10)) (fun j => x (j + 1)) i := by
  induction i with
  | zero => simp [specSmoothFrom]
  | succ i ih =>
      rw [specSmoothFrom, ih]
      rfl

theorem smoothFrom_length (prev : ℚ) (xs : List ℚ) :
    (smoothFrom prev xs).length = xs.length := by
  induction xs generalizing prev with
  | nil => rfl
  | cons x xs ih => simp [smoothFrom, ih]

theorem smoothChannel_length (xs : List ℚ) :
    (smoothChannel xs).length = xs.length := by
  cases xs with
  | nil => rfl
  | cons x xs => simp [smoothChannel, smoothFrom_length]

theorem smoothFrom_getD (xs : List ℚ) (prev : ℚ) (i : ℕ)
    (h : i < xs.length) :
    (smoothFrom prev xs).getD i 0 =
      specSmoothFrom prev (fun j => xs.getD j 0) i := by
  induction xs generalizing prev i with
  | nil => simp at h
  | cons x xs ih =>
      cases i with
      | zero =>
          show prev * (1 - smoothingFactor) + x * smoothingFactor = _
          show _ = prev * (7/10) + x * (3/10)
          norm_num [smoothingFactor]
      | succ i =>
          have hi : i < xs.length := by
            simpa using Nat.lt_of_succ_lt_succ h
          show (smoothFrom (prev * (1 - smoothingFactor) + x * smoothingFactor) xs).getD i 0 = _
          rw [ih _ _ hi, specSmoothFrom_shift]
          have hc : prev * (1 - smoothingFactor) + x * smoothingFactor =
              prev * (7/10) + x * (3/10) := by
            norm_num [smoothingFactor]
          rw [hc]
          rfl

theorem specSmooth_shift (x : ℕ → ℚ) (i : ℕ) :
    specSmooth x (i + 1) = specSmoothFrom (x 0) (fun j => x (j + 1)) i := by
  induction i with
  | zero => simp [specSmooth, specSmoothFrom]
  | succ i ih => rw [specSmooth, ih]; rfl

/-- The smoothing loop of the source computes exactly the spec's index
recurrence, at every in-range index. -/
theorem smoothChannel_getD (xs : List ℚ) (i : ℕ) (h : i < xs.length) :
    (smoothChannel xs).getD i 0 = specSmooth (fun j => xs.getD j 0) i := by
  cases xs with
  | nil => simp at h
  | cons x xs =>
      cases i with
      | zero => rfl
      | succ i =>
          have hi : i < xs.length := by
            simpa using Nat.lt_of_succ_lt_succ h
          show (smoothFrom x xs).getD i 0 = _
          rw [smoothFrom_getD _ _ _ hi, specSmooth_shift]
          rfl

theorem centerChannel_getD (left right : List ℚ) (i : ℕ)
    (hl : i < left.length) (hlen : left.length = right.length) :
    (centerChannel left right).getD i 0 =
      (left.getD i 0 + right.getD i 0) / 2 := by
  have hr : i < right.length := hlen ▸ hl
  have hz : i < (centerChannel left right).length := by
    simp [centerChannel, hlen, hr]
  rw [List.getD_eq_getElem _ _ hz, List.getD_eq_getElem _ _ hl,
    List.getD_eq_getElem _ _ hr]
  simp [centerChannel]

theorem sideChannelLeft_getD (left right : List ℚ) (i : ℕ)
    (hl : i < left.length) (hlen : left.length = right.length) :
    (sideChannelLeft left right).getD i 0 =
      left.getD i 0 - (left.getD i 0 + right.getD i 0) / 2 := by
  have hr : i < right.length := hlen ▸ hl
  have hz : i < (sideChannelLeft left right).length := by
    simp [sideChannelLeft, hlen, hr]
  rw [List.getD_eq_getElem _ _ hz, List.getD_eq_getElem _ _ hl,
    List.getD_eq_getElem _ _ hr]
  simp [sideChannelLeft]

theorem sideChannelRight_getD (left right : List ℚ) (i : ℕ)
    (hl : i < left.length) (hlen : left.length = right.length) :
    (sideChannelRight left right).getD i 0 =
      right.getD i 0 - (left.getD i 0 + right.getD i 0) / 2 := by
  have hr : i < right.length := hlen ▸ hl
  have hz : i < (sideChannelRight left right).length := by
    simp [sideChannelRight, hlen, hr]
  rw [List.getD_eq_getElem _ _ hz, List.getD_eq_getElem _ _ hl,
    List.getD_eq_getElem _ _ hr]
  simp [sideChannelRight]

theorem centerChannel_length (left right : List ℚ)
    (hlen : left.length = right.length) :
    (centerChannel left right).length = left.length := by
  simp [centerChannel, hlen]

theorem sideChannelLeft_length (left right : List ℚ)
    (hlen : left.length = right.length) :
    (sideChannelLeft left right).length = left.length := by
  simp [sideChannelLeft, hlen]

theorem sideChannelRight_length (left right : List ℚ)
    (hlen : left.length = right.length) :
    (sideChannelRight left right).length = left.length := by
  simp [sideChannelRight, hlen]

/-- C1: For every stereo input of length at least 1, the pre-enhancement
stereo-branch outputs are: both vocal channels equal the causal exponential
smoothing (α = 0.3, `y[0] = x[0]`, `y[i] = y[i-1]*0.7 + x[i]*0.3`) of the
center signal `center[i] = (left[i]+right[i])/2`, and the left/right
accompaniment channels equal the same smoothing of
`sideLeft[i] = left[i] - center[i]` and `sideRight[i] = right[i] - center[i]`
respectively, at every in-range sample index. -/
theorem stereo_outputs_are_smoothed_center_and_sides
    (left right : List ℚ) (hlen : left.length = right.length)
    (_hpos : 1 ≤ left.length) (i : ℕ) (hi : i < left.length) :
    (stereoSeparate left right).1.getD i 0 =
      specSmooth (fun j => (left.getD j 0 + right.getD j 0) / 2) i ∧
    (stereoSeparate left right).2.1.getD i 0 =
      specSmooth (fun j => (left.getD j 0 + right.getD j 0) / 2) i ∧
    (stereoSeparate left right).2.2.1.getD i 0 =
      specSmooth (fun j =>
        left.getD j 0 - (left.getD j 0 + right.getD j 0) / 2) i ∧
    (stereoSeparate left right).2.2.2.getD i 0 =
      specSmooth (fun j =>
        right.getD j 0 - (left.getD j 0 + right.getD j 0) / 2) i := by
  have hc : i < (centerChannel left right).length := by
    rw [centerChannel_length left right hlen]; exact hi
  have hsl : i < (sideChannelLeft left right).length := by
    rw [sideChannelLeft_length left right hlen]; exact hi
  have hsr : i < (sideChannelRight left right).length := by
    rw [sideChannelRight_length left right hlen]; exact hi
  refine ⟨?_, ?_, ?_, ?_⟩
  · show (smoothChannel (centerChannel left right)).getD i 0 = _
    rw [smoothChannel_getD _ _ hc]
    apply congrFun
    apply congrArg
    funext j
    by_cases hj : j < left.length
    · exact centerChannel_getD left right j hj hlen
    · have hjc : ¬ j < (centerChannel left right).length := by
        rw [centerChannel_length left right hlen]; exact hj
      rw [List.getD_eq_default _ _ (Nat.le_of_not_lt hjc),
        List.getD_eq_default _ _ (Nat.le_of_not_lt hj),
        List.getD_eq_default _ _ (Nat.le_of_not_lt (hlen ▸ hj))]
      norm_num
  · show (smoothChannel (centerChannel left right)).getD i 0 = _
    rw [smoothChannel_getD _ _ hc]
    apply congrFun
    apply congrArg
    funext j
    by_cases hj : j < left.length
    · exact centerChannel_getD left right j hj hlen
    · have hjc : ¬ j < (centerChannel left right).length := by
        rw [centerChannel_length left right hlen]; exact hj
      rw [List.getD_eq_default _ _ (Nat.le_of_not_lt hjc),
        List.getD_eq_default _ _ (Nat.le_of_not_lt hj),
        List.getD_eq_default _ _ (Nat.le_of_not_lt (hlen ▸ hj))]
      norm_num
  · show (smoothChannel (sideChannelLeft left right)).getD i 0 = _
    rw [smoothChannel_getD _ _ hsl]
    apply congrFun
    apply congrArg
    funext j
    by_cases hj : j < left.length
    · exact sideChannelLeft_getD left right j hj hlen
    · have hjc : ¬ j < (sideChannelLeft left right).length := by
        rw [sideChannelLeft_length left right hlen]; exact hj
      rw [List.getD_eq_default _ _ (Nat.le_of_not_lt hjc),
        List.getD_eq_default _ _ (Nat.le_of_not_lt hj),
        List.getD_eq_default _ _ (Nat.le_of_not_lt (hlen ▸ hj))]
      norm_num
  · show (smoothChannel (sideChannelRight left right)).getD i 0 = _
    rw [smoothChannel_getD _ _ hsr]
    apply congrFun
    apply congrArg
    funext j
    by_cases hj : j < left.length
    · exact sideChannelRight_getD left right j hj hlen
    · have hjc : ¬ j < (sideChannelRight left right).length := by
        rw [sideChannelRight_length left right hlen]; exact hj
      rw [List.getD_eq_default _ _ (Nat.le_of_not_lt hjc),
        List.getD_eq_default _ _ (Nat.le_of_not_lt hj),
        List.getD_eq_default _ _ (Nat.le_of_not_lt (hlen ▸ hj))]
      norm_num

/-- Witness for C1 at the concrete stereo input left = [1, 0], right = [0, 1]. -/
theorem stereo_outputs_are_smoothed_center_and_sides_witness :
    ([ (1:ℚ), 0 ].length = [ (0:ℚ), 1 ].length) ∧
    (1 ≤ [ (1:ℚ), 0 ].length) ∧
    ((1:ℕ) < [ (1:ℚ), 0 ].length) ∧
    ((stereoSeparate [1, 0] [0, 1]).1.getD 1 0 =
      specSmooth (fun j =>
        ([ (1:ℚ), 0 ].getD j 0 + [ (0:ℚ), 1 ].getD j 0) / 2) 1 ∧
     (stereoSeparate [1, 0] [0, 1]).2.1.getD 1 0 =
      specSmooth (fun j =>
        ([ (1:ℚ), 0 ].getD j 0 + [ (0:ℚ), 1 ].getD j 0) / 2) 1 ∧
     (stereoSeparate [1, 0] [0, 1]).2.2.1.getD 1 0 =
      specSmooth (fun j =>
        [ (1:ℚ), 0 ].getD j 0 -
          ([ (1:ℚ), 0 ].getD j 0 + [ (0:ℚ), 1 ].getD j 0) / 2) 1 ∧
     (stereoSeparate [1, 0] [0, 1]).2.2.2.getD 1 0 =
      specSmooth (fun j =>
        [ (0:ℚ), 1 ].getD j 0 -
          ([ (1:ℚ), 0 ].getD j 0 + [ (0:ℚ), 1 ].getD j 0) / 2) 1) :=
  ⟨by decide, by decide, by decide,
    stereo_outputs_are_smoothed_center_and_sides [1, 0] [0, 1]
      (by decide) (by decide) 1 (by decide)⟩

/-! ## Mono branch of `extractVocals` (lines 273–308)

Windowed overlap-add with window size 1024 and hop 256; per window, samples
are weighted by a linear frequency proxy and accumulated into pre-sized
zero-initialized output buffers. -/

/-- `windowSize` constant (line 280). -/
def windowSize : ℕ := 1024

/-- `hopSize = windowSize / 4` (line 281). -/
def hopSize : ℕ := windowSize / 4

/-- `vocalWeight = Math.min(1, freqWeight * 3)` with
`freqWeight = i / windowSize` (lines 294–295). -/
def vocalWeight (i : ℕ) : ℚ := min 1 ((i : ℚ) / (windowSize : ℚ) * 3)

/-- `accompanimentWeight = Math.min(1, (1 - freqWeight) * 2)` (line 296). -/
def accompanimentWeight (i : ℕ) : ℚ :=
  min 1 ((1 - (i : ℚ) / (windowSize : ℚ)) * 2)

/-- One accumulating array write `out[k] += v` (lines 304–305); out-of-range
writes are impossible under the loop guard but modelled as no-ops. -/
def addAt (xs : List ℚ) (k : ℕ) (v : ℚ) : List ℚ := xs.set k (xs.getD k 0 + v)

/-- `window = inputData.slice(start, start + windowSize)` (line 284). -/
def windowAt (input : List ℚ) (start : ℕ) : List ℚ :=
  (input.drop start).take windowSize

/-- The per-window weighting loop (lines 290–300): builds the weighted
window `window[i] * weight(i)` for `i < windowSize`. -/
def weightedWindow (input : List ℚ) (start : ℕ) (weight : ℕ → ℚ) : List ℚ :=
  (List.range windowSize).map (fun i => (windowAt input start).getD i 0 * weight i)

/-- The copy-accumulate loop (lines 302–306): the first `n` iterations of
`for (i = 0; i < windowSize && start + i < length; i++) out[start+i] += w[i]`,
written as a recursion on the iteration count (the guard `start + i < L` is
monotone in `i`, so guarding each iteration equals breaking early). -/
def copyLoop (L start : ℕ) (w : List ℚ) : ℕ → List ℚ → List ℚ
  | 0, out => out
  | n + 1, out =>
      if start + n < L then
        addAt (copyLoop L start w n out) (start + n) (w.getD n 0)
      else copyLoop L start w n out

/-- Processing of one window: weight it, then accumulate it into the output
buffer at the window's absolute offset. -/
def processWindow (input out : List ℚ) (start : ℕ) (weight : ℕ → ℚ) : List ℚ :=
  copyLoop input.length start (weightedWindow input start weight) windowSize out

/-- The window start offsets visited by
`for (start = 0; start < length - windowSize; start += hopSize)` (line 283);
the comparison is on JavaScript numbers, hence over `ℤ` (for
`length < windowSize` the bound `length - windowSize` is negative and the
loop body never runs). -/
def monoStartsFrom (L start : ℕ) : List ℕ :=
  if (start : ℤ) < (L : ℤ) - (windowSize : ℤ) then
    start :: monoStartsFrom L (start + hopSize)
  else []
termination_by L - start
decreasing_by
  rename_i h
  have hsL : start < L := by
    have : (start : ℤ) < (L : ℤ) := by omega
    exact_mod_cast this
  have : start < start + hopSize := by
    have : 0 < hopSize := by norm_num [hopSize, windowSize]
    omega
  exact Nat.sub_lt_sub_left hsL this

/-- One output stem of the mono branch: fold the per-window processing over
all visited starts, beginning from a zero buffer of the input's length
(the source processes both stems inside one loop over starts; the two
accumulations never interact, so each stem is its own fold). -/
def overlapAdd (input : List ℚ) (weight : ℕ → ℚ) : List ℚ :=
  (monoStartsFrom input.length 0).foldl
    (fun out s => processWindow input out s weight)
    (List.replicate input.length 0)

/-- The mono branch (lines 273–308), pre-normalization:
(vocals, accompaniment). -/
def monoSeparate (input : List ℚ) : List ℚ × List ℚ :=
  (overlapAdd input vocalWeight, overlapAdd input accompanimentWeight)

theorem addAt_length (xs : List ℚ) (k : ℕ) (v : ℚ) :
    (addAt xs k v).length = xs.length := by
  simp [addAt]

theorem addAt_getD (xs : List ℚ) (k : ℕ) (v : ℚ) (i : ℕ) :
    (addAt xs k v).getD i 0 =
      if i = k ∧ k < xs.length then xs.getD i 0 + v else xs.getD i 0 := by
  by_cases hk : k < xs.length
  · by_cases hik : i = k
    · subst hik
      have hi : i < (addAt xs i v).length := by rw [addAt_length]; exact hk
      rw [List.getD_eq_getElem _ _ hi, List.getD_eq_getElem _ _ hk]
      simp [addAt, List.getElem_set, hk, List.getD_eq_getElem _ _ hk]
    · simp only [hik, false_and, if_false]
      by_cases hi : i < xs.length
      · have hi2 : i < (addAt xs k v).length := by rw [addAt_length]; exact hi
        rw [List.getD_eq_getElem _ _ hi2, List.getD_eq_getElem _ _ hi]
        exact List.getElem_set_ne (fun h => hik h.symm) hi2
      · rw [List.getD_eq_default _ _ (Nat.le_of_not_lt hi),
          List.getD_eq_default _ _ ?_]
        rw [addAt_length]; exact Nat.le_of_not_lt hi
  · simp only [hk, and_false, if_false]
    unfold addAt
    rw [List.set_eq_of_length_le (Nat.le_of_not_lt hk)]

theorem copyLoop_length (L start : ℕ) (w : List ℚ) (n : ℕ) (out : List ℚ) :
    (copyLoop L start w n out).length = out.length := by
  induction n with
  | zero => rfl
  | succ n ih =>
      unfold copyLoop
      by_cases h : start + n < L
      · rw [if_pos h, addAt_length, ih]
      · rw [if_neg h, ih]

theorem copyLoop_getD (L start : ℕ) (w : List ℚ) (n : ℕ) (out : List ℚ)
    (hout : out.length = L) (i : ℕ) :
    (copyLoop L start w n out).getD i 0 =
      out.getD i 0 +
        (if start ≤ i ∧ i < start + n ∧ i < L then w.getD (i - start) 0 else 0) := by
  induction n with
  | zero =>
      have hno : ¬ (start ≤ i ∧ i < start + 0 ∧ i < L) := by omega
      show out.getD i 0 = out.getD i 0 + _
      rw [if_neg hno, add_zero]
  | succ n ih =>
      unfold copyLoop
      by_cases h : start + n < L
      · rw [if_pos h, addAt_getD, copyLoop_length, hout]
        by_cases hi : i = start + n
        · subst hi
          have h1 : start + n = start + n ∧ start + n < L := ⟨rfl, h⟩
          rw [if_pos h1, ih]
          have hno : ¬ (start ≤ start + n ∧ start + n < start + n ∧ start + n < L) := by
            omega
          have hyes : start ≤ start + n ∧ start + n < start + (n + 1) ∧ start + n < L := by
            omega
          rw [if_neg hno, if_pos hyes]
          simp [Nat.add_sub_cancel_left]
        · have h1 : ¬ (i = start + n ∧ start + n < L) := fun hc => hi hc.1
          rw [if_neg h1, ih]
          have : (start ≤ i ∧ i < start + n ∧ i < L) ↔
              (start ≤ i ∧ i < start + (n + 1) ∧ i < L) := by omega
          simp only [this]
      · rw [if_neg h, ih]
        have : (start ≤ i ∧ i < start + n ∧ i < L) ↔
            (start ≤ i ∧ i < start + (n + 1) ∧ i < L) := by omega
        simp only [this]

theorem weightedWindow_getD (input : List ℚ) (start : ℕ) (weight : ℕ → ℚ)
    (j : ℕ) (hj : j < windowSize) (hin : start + j < input.length) :
    (weightedWindow input start weight).getD j 0 =
      input.getD (start + j) 0 * weight j := by
  have hlen : j < (List.range windowSize).length := by simpa using hj
  have hlen2 : j < (weightedWindow input start weight).length := by
    simp [weightedWindow, hj]
  rw [List.getD_eq_getElem _ _ hlen2]
  unfold weightedWindow
  rw [List.getElem_map]
  have hwin : j < (windowAt input start).length := by
    simp only [windowAt, List.length_take, List.length_drop]
    omega
  rw [List.getElem_range, List.getD_eq_getElem _ _ hwin]
  unfold windowAt
  rw [List.getElem_take, List.getElem_drop, ← List.getD_eq_getElem _ (0:ℚ) hin]

theorem processWindow_length (input out : List ℚ) (start : ℕ)
    (weight : ℕ → ℚ) :
    (processWindow input out start weight).length = out.length := by
  unfold processWindow
  rw [copyLoop_length]

theorem processWindow_getD (input out : List ℚ) (start : ℕ)
    (weight : ℕ → ℚ) (hout : out.length = input.length) (i : ℕ) :
    (processWindow input out start weight).getD i 0 =
      out.getD i 0 +
        (if start ≤ i ∧ i < start + windowSize ∧ i < input.length then
          input.getD i 0 * weight (i - start) else 0) := by
  unfold processWindow
  rw [copyLoop_getD _ _ _ _ _ hout]
  by_cases hc : start ≤ i ∧ i < start + windowSize ∧ i < input.length
  · rw [if_pos hc, if_pos hc,
      weightedWindow_getD input start weight (i - start) (by omega) (by omega)]
    have : start + (i - start) = i := by omega
    rw [this]
  · rw [if_neg hc, if_neg hc]

/-- Closed form of one overlap-add fold: starting from a buffer of the
input's length, the result at index `i` is the initial value plus the sum of
the contributions of all visited windows that cover `i`. -/
theorem foldl_processWindow_getD (input : List ℚ) (weight : ℕ → ℚ)
    (S : List ℕ) (out : List ℚ) (hout : out.length = input.length) (i : ℕ) :
    ((S.foldl (fun o s => processWindow input o s weight) out)).getD i 0 =
      out.getD i 0 +
        (S.map (fun s =>
          if s ≤ i ∧ i < s + windowSize ∧ i < input.length then
            input.getD i 0 * weight (i - s) else 0)).sum := by
  induction S generalizing out with
  | nil => simp
  | cons s S ih =>
      rw [List.foldl_cons, ih _ (by rw [processWindow_length]; exact hout),
        processWindow_getD _ _ _ _ hout]
      simp [add_assoc]

theorem overlapAdd_getD (input : List ℚ) (weight : ℕ → ℚ) (i : ℕ)
    (hi : i < input.length) :
    (overlapAdd input weight).getD i 0 =
      ((monoStartsFrom input.length 0).map (fun s =>
        if s ≤ i ∧ i < s + windowSize then
          input.getD i 0 * weight (i - s) else 0)).sum := by
  unfold overlapAdd
  rw [foldl_processWindow_getD _ _ _ _ (by simp) i]
  have hz : (List.replicate input.length (0:ℚ)).getD i 0 = 0 := by
    rcases Nat.lt_or_ge i input.length with h | h
    · rw [List.getD_eq_getElem _ _ (by simpa using h)]
      simp
    · rw [List.getD_eq_default _ _ (by simpa using h)]
  rw [hz, zero_add]
  congr 1
  apply List.map_congr_left
  intro s _
  have : (s ≤ i ∧ i < s + windowSize ∧ i < input.length) ↔
      (s ≤ i ∧ i < s + windowSize) := by
    constructor
    · rintro ⟨h1, h2, _⟩; exact ⟨h1, h2⟩
    · rintro ⟨h1, h2⟩; exact ⟨h1, h2, hi⟩
  simp only [this]

/-- C2: For every mono input, the pre-normalization outputs are a windowed
overlap-add: at every in-range index `i`, each output equals the sum over
all processed windows (starts `s` visited by the loop) covering `i` of
`input[i] * weight(i - s)`, with the vocal weight `min(1, (j/1024)*3)` and
the accompaniment weight `min(1, (1 - j/1024)*2)` at in-window offset
`j = i - s`; and every index beyond all processed windows is zero in both
outputs. -/
theorem mono_branch_is_windowed_overlap_add (input : List ℚ) (i : ℕ)
    (hi : i < input.length) :
    (monoSeparate input).1.getD i 0 =
      ((monoStartsFrom input.length 0).map (fun s =>
        if s ≤ i ∧ i < s + windowSize then
          input.getD i 0 * min 1 (((i - s : ℕ) : ℚ) / 1024 * 3) else 0)).sum ∧
    (monoSeparate input).2.getD i 0 =
      ((monoStartsFrom input.length 0).map (fun s =>
        if s ≤ i ∧ i < s + windowSize then
          input.getD i 0 * min 1 ((1 - ((i - s : ℕ) : ℚ) / 1024) * 2) else 0)).sum ∧
    ((∀ s ∈ monoStartsFrom input.length 0, s + windowSize ≤ i) →
      (monoSeparate input).1.getD i 0 = 0 ∧
      (monoSeparate input).2.getD i 0 = 0) := by
  have h1 : (monoSeparate input).1.getD i 0 =
      ((monoStartsFrom input.length 0).map (fun s =>
        if s ≤ i ∧ i < s + windowSize then
          input.getD i 0 * vocalWeight (i - s) else 0)).sum :=
    overlapAdd_getD input vocalWeight i hi
  have h2 : (monoSeparate input).2.getD i 0 =
      ((monoStartsFrom input.length 0).map (fun s =>
        if s ≤ i ∧ i < s + windowSize then
          input.getD i 0 * accompanimentWeight (i - s) else 0)).sum :=
    overlapAdd_getD input accompanimentWeight i hi
  have hv : ∀ j : ℕ, vocalWeight j = min 1 ((j : ℚ) / 1024 * 3) := by
    intro j; rfl
  have ha : ∀ j : ℕ, accompanimentWeight j = min 1 ((1 - (j : ℚ) / 1024) * 2) := by
    intro j; rfl
  refine ⟨by rw [h1]; simp only [hv], by rw [h2]; simp only [ha], ?_⟩
  intro htrail
  constructor
  · rw [h1]
    apply List.sum_eq_zero
    intro x hx
    rw [List.mem_map] at hx
    obtain ⟨s, hs, hxs⟩ := hx
    have := htrail s hs
    have : ¬ (s ≤ i ∧ i < s + windowSize) := by omega
    rw [if_neg this] at hxs
    exact hxs.symm
  · rw [h2]
    apply List.sum_eq_zero
    intro x hx
    rw [List.mem_map] at hx
    obtain ⟨s, hs, hxs⟩ := hx
    have := htrail s hs
    have : ¬ (s ≤ i ∧ i < s + windowSize) := by omega
    rw [if_neg this] at hxs
    exact hxs.symm

/-- Witness for C2 at the concrete mono input of 1100 ones, index 0. -/
theorem mono_branch_is_windowed_overlap_add_witness :
    ((0:ℕ) < (List.replicate 1100 (1:ℚ)).length) ∧
    ((monoSeparate (List.replicate 1100 (1:ℚ))).1.getD 0 0 =
      ((monoStartsFrom (List.replicate 1100 (1:ℚ)).length 0).map (fun s =>
        if s ≤ 0 ∧ 0 < s + windowSize then
          (List.replicate 1100 (1:ℚ)).getD 0 0 *
            min 1 (((0 - s : ℕ) : ℚ) / 1024 * 3) else 0)).sum ∧
     (monoSeparate (List.replicate 1100 (1:ℚ))).2.getD 0 0 =
      ((monoStartsFrom (List.replicate 1100 (1:ℚ)).length 0).map (fun s =>
        if s ≤ 0 ∧ 0 < s + windowSize then
          (List.replicate 1100 (1:ℚ)).getD 0 0 *
            min 1 ((1 - ((0 - s : ℕ) : ℚ) / 1024) * 2) else 0)).sum ∧
     ((∀ s ∈ monoStartsFrom (List.replicate 1100 (1:ℚ)).length 0,
        s + windowSize ≤ 0) →
      (monoSeparate (List.replicate 1100 (1:ℚ))).1.getD 0 0 = 0 ∧
      (monoSeparate (List.replicate 1100 (1:ℚ))).2.getD 0 0 = 0)) :=
  ⟨by rw [List.length_replicate]; norm_num,
    mono_branch_is_windowed_overlap_add (List.replicate 1100 (1:ℚ)) 0
      (by rw [List.length_replicate]; norm_num)⟩

/-- C10: A mono input of length at most the window size (1024) is never
covered by any window of the loop (the guard `start < length - windowSize`
fails already at `start = 0`, even when one full window would fit exactly),
so both stems come out as all-zero buffers of the input's length, whatever
the input samples are. -/
theorem mono_short_input_gives_silence (input : List ℚ)
    (h : input.length ≤ windowSize) :
    monoSeparate input =
      (List.replicate input.length 0, List.replicate input.length 0) := by
  have hS : monoStartsFrom input.length 0 = [] := by
    rw [monoStartsFrom]
    have hle : (input.length : ℤ) ≤ (windowSize : ℤ) := by exact_mod_cast h
    rw [if_neg (by push_cast; omega)]
  unfold monoSeparate overlapAdd
  rw [hS]
  rfl

/-- Witness for C10 at the concrete non-silent mono input of exactly 1024
ones: both stems are total silence. -/
theorem mono_short_input_gives_silence_witness :
    ((List.replicate 1024 (1:ℚ)).length ≤ windowSize) ∧
    monoSeparate (List.replicate 1024 (1:ℚ)) =
      (List.replicate (List.replicate 1024 (1:ℚ)).length 0,
       List.replicate (List.replicate 1024 (1:ℚ)).length 0) :=
  ⟨by rw [List.length_replicate]; norm_num [windowSize],
    mono_short_input_gives_silence (List.replicate 1024 (1:ℚ))
      (by rw [List.length_replicate]; norm_num [windowSize])⟩

/-! ## Normalizer (lines 310–341)

Per channel: running maximum of absolute values (lines 316–325), then a
single attenuating gain `min(1, 0.9 / peak)` applied when the peak is
positive (lines 327–340). -/

/-- The running-maximum loop of lines 319–325:
`if (abs > max) max = abs`, starting from 0. -/
def channelPeak (xs : List ℚ) : ℚ :=
  xs.foldl (fun m v => if |v| > m then |v| else m) 0

/-- Per-channel normalization (lines 327–333 and 335–340, identical for
both stems): if the peak is positive, scale every sample by
`min(1, 0.9 / peak)`; otherwise leave the channel untouched. -/
def normalizeChannel (xs : List ℚ) : List ℚ :=
  if 0 < channelPeak xs then
    xs.map (fun v => v * min 1 ((9/10) / channelPeak xs))
  else xs

/-- The normalization pass over a whole matrix (loop over channels at
line 311). -/
def normalizeMatrix (m : SampleMatrix) : SampleMatrix :=
  { m with channels := m.channels.map normalizeChannel }

theorem peakStep_le_foldl (xs : List ℚ) (m : ℚ) :
    m ≤ xs.foldl (fun m v => if |v| > m then |v| else m) m := by
  induction xs generalizing m with
  | nil => exact le_refl m
  | cons x xs ih =>
      refine le_trans ?_ (ih (if |x| > m then |x| else m))
      by_cases h : |x| > m
      · rw [if_pos h]; exact le_of_lt h
      · rw [if_neg h]

theorem abs_le_channelPeak (xs : List ℚ) :
    ∀ v ∈ xs, |v| ≤ channelPeak xs := by
  suffices h : ∀ (xs : List ℚ) (m : ℚ), ∀ v ∈ xs,
      |v| ≤ xs.foldl (fun m v => if |v| > m then |v| else m) m by
    intro v hv; exact h xs 0 v hv
  intro xs
  induction xs with
  | nil => intro m v hv; simp at hv
  | cons x xs ih =>
      intro m v hv
      rcases List.mem_cons.mp hv with hv | hv
      · subst hv
        rw [List.foldl_cons]
        refine le_trans ?_ (peakStep_le_foldl xs _)
        by_cases h : |v| > m
        · rw [if_pos h]
        · rw [if_neg h]; exact le_of_not_lt h
      · exact ih _ v hv

theorem channelPeak_eq_zero_or_mem (xs : List ℚ) :
    channelPeak xs = 0 ∨ ∃ v ∈ xs, channelPeak xs = |v| := by
  suffices h : ∀ (xs : List ℚ) (m : ℚ),
      xs.foldl (fun m v => if |v| > m then |v| else m) m = m ∨
      ∃ v ∈ xs, xs.foldl (fun m v => if |v| > m then |v| else m) m = |v| by
    exact h xs 0
  intro xs
  induction xs with
  | nil => intro m; exact Or.inl rfl
  | cons x xs ih =>
      intro m
      rw [List.foldl_cons]
      rcases ih (if |x| > m then |x| else m) with h | ⟨v, hv, he⟩
      · by_cases hx : |x| > m
        · refine Or.inr ⟨x, List.mem_cons_self x xs, ?_⟩
          rw [if_pos hx]
          rw [if_pos hx] at h
          exact h
        · refine Or.inl ?_
          rw [if_neg hx]
          rw [if_neg hx] at h
          exact h
      · exact Or.inr ⟨v, List.mem_cons_of_mem x hv, he⟩

theorem channelPeak_nonneg (xs : List ℚ) : 0 ≤ channelPeak xs := by
  exact peakStep_le_foldl xs 0

theorem channelPeak_le_of_forall (xs : List ℚ) (c : ℚ) (hc : 0 ≤ c)
    (h : ∀ v ∈ xs, |v| ≤ c) : channelPeak xs ≤ c := by
  rcases channelPeak_eq_zero_or_mem xs with hz | ⟨v, hv, he⟩
  · rw [hz]; exact hc
  · rw [he]; exact h v hv

theorem normalizeChannel_of_peak_le (xs : List ℚ)
    (h : channelPeak xs ≤ 9/10) : normalizeChannel xs = xs := by
  unfold normalizeChannel
  by_cases hp : 0 < channelPeak xs
  · rw [if_pos hp]
    have hg : min 1 ((9/10 : ℚ) / channelPeak xs) = 1 := by
      have : (1 : ℚ) ≤ (9/10) / channelPeak xs := (one_le_div hp).mpr h
      exact min_eq_left this
    rw [hg]
    simp
  · rw [if_neg hp]

/-- C3: Per channel, the Normalizer's peak is the maximum absolute sample
(an upper bound attained on some sample unless it is 0); when the peak is
positive every sample is scaled by `min(1, 0.9/peak)` and the resulting
peak is at most 0.9; a channel whose peak is already at most 0.9 is
returned unchanged (gain 1, never amplified); an all-zero channel is not
modified. -/
theorem normalizer_spec (xs : List ℚ) :
    (∀ v ∈ xs, |v| ≤ channelPeak xs) ∧
    (channelPeak xs = 0 ∨ ∃ v ∈ xs, channelPeak xs = |v|) ∧
    (0 < channelPeak xs →
      normalizeChannel xs =
        xs.map (fun v => v * min 1 ((9/10) / channelPeak xs)) ∧
      channelPeak (normalizeChannel xs) ≤ 9/10) ∧
    (channelPeak xs ≤ 9/10 → normalizeChannel xs = xs) ∧
    ((∀ v ∈ xs, v = 0) → normalizeChannel xs = xs) := by
  refine ⟨abs_le_channelPeak xs, channelPeak_eq_zero_or_mem xs, ?_,
    normalizeChannel_of_peak_le xs, ?_⟩
  · intro hp
    have hmap : normalizeChannel xs =
        xs.map (fun v => v * min 1 ((9/10) / channelPeak xs)) := by
      unfold normalizeChannel
      rw [if_pos hp]
    refine ⟨hmap, ?_⟩
    rw [hmap]
    apply channelPeak_le_of_forall _ _ (by norm_num)
    intro v hv
    rw [List.mem_map] at hv
    obtain ⟨u, hu, rfl⟩ := hv
    have hgain0 : 0 ≤ min 1 ((9/10 : ℚ) / channelPeak xs) :=
      le_min (by norm_num) (le_of_lt (div_pos (by norm_num) hp))
    rw [abs_mul, abs_of_nonneg hgain0]
    calc |u| * min 1 ((9/10) / channelPeak xs)
        ≤ channelPeak xs * ((9/10) / channelPeak xs) := by
          apply mul_le_mul (abs_le_channelPeak xs u hu) (min_le_right _ _)
            hgain0 (channelPeak_nonneg xs)
      _ = 9/10 := by
          rw [mul_comm]
          exact div_mul_cancel₀ _ (ne_of_gt hp)
  · intro hz
    apply normalizeChannel_of_peak_le
    refine le_trans (channelPeak_le_of_forall xs 0 (le_refl 0) ?_) (by norm_num)
    intro v hv
    rw [hz v hv]
    norm_num

/-- Witness for C3 at the concrete channel [2, -1] (peak 2 > 0.9). -/
theorem normalizer_spec_witness :
    (0 < channelPeak [(2:ℚ), -1]) ∧
    (normalizeChannel [(2:ℚ), -1] =
      [(2:ℚ), -1].map (fun v => v * min 1 ((9/10) / channelPeak [(2:ℚ), -1])) ∧
     channelPeak (normalizeChannel [(2:ℚ), -1]) ≤ 9/10) :=
  ⟨by decide, (normalizer_spec [(2:ℚ), -1]).2.2.1 (by decide)⟩

theorem normalizeChannel_idem (xs : List ℚ) :
    normalizeChannel (normalizeChannel xs) = normalizeChannel xs := by
  by_cases hp : 0 < channelPeak xs
  · exact normalizeChannel_of_peak_le _ ((normalizer_spec xs).2.2.1 hp).2
  · have hx : normalizeChannel xs = xs := by
      unfold normalizeChannel; rw [if_neg hp]
    rw [hx, hx]

/-- C4: The Normalizer is idempotent on every SampleMatrix: after one pass
every channel's peak is at most 0.9, so a second pass applies gain 1
everywhere and changes nothing. -/
theorem normalizeMatrix_idempotent (m : SampleMatrix) :
    normalizeMatrix (normalizeMatrix m) = normalizeMatrix m := by
  unfold normalizeMatrix
  simp only [List.map_map]
  congr 1
  apply List.map_congr_left
  intro xs _
  exact normalizeChannel_idem xs

/-! ## The spec's example scenario (C5)

2-channel, 2-second, 44100 Hz input with both channels constant 0.5. -/

/-- Sample count of the example: 2 seconds at 44100 Hz. -/
def exampleLen : ℕ := 88200

/-- The example's left and right channel: constant 0.5. -/
def exampleChannel : List ℚ := List.replicate exampleLen (1/2)

theorem smoothFrom_replicate (c : ℚ) (n : ℕ) :
    smoothFrom c (List.replicate n c) = List.replicate n c := by
  induction n with
  | zero => rfl
  | succ n ih =>
      have hc : c * (1 - smoothingFactor) + c * smoothingFactor = c := by ring
      show (c * (1 - smoothingFactor) + c * smoothingFactor) ::
        smoothFrom (c * (1 - smoothingFactor) + c * smoothingFactor)
          (List.replicate n c) = c :: List.replicate n c
      rw [hc, ih]

theorem smoothChannel_replicate (c : ℚ) (n : ℕ) :
    smoothChannel (List.replicate n c) = List.replicate n c := by
  cases n with
  | zero => rfl
  | succ n =>
      show c :: smoothFrom c (List.replicate n c) = c :: List.replicate n c
      rw [smoothFrom_replicate]

theorem foldl_peak_replicate (n : ℕ) (c m : ℚ) (h : |c| ≤ m) :
    (List.replicate n c).foldl (fun m v => if |v| > m then |v| else m) m = m := by
  induction n with
  | zero => rfl
  | succ n ih =>
      show (List.replicate n c).foldl _ (if |c| > m then |c| else m) = m
      rw [if_neg (not_lt.mpr h)]
      exact ih

theorem channelPeak_replicate (n : ℕ) (c : ℚ) :
    channelPeak (List.replicate (n + 1) c) = |c| := by
  show (List.replicate n c).foldl _ (if |c| > 0 then |c| else 0) = |c|
  have h1 : (if |c| > 0 then |c| else 0) = |c| := by
    by_cases h : |c| > 0
    · rw [if_pos h]
    · rw [if_neg h]
      exact (le_antisymm (not_lt.mp h) (abs_nonneg c)).symm
  rw [h1]
  exact foldl_peak_replicate n c |c| (le_refl _)

theorem exampleCenter_eq : centerChannel exampleChannel exampleChannel =
    List.replicate exampleLen (1/2) := by
  unfold centerChannel exampleChannel
  rw [List.zipWith_replicate]
  norm_num

theorem exampleSideLeft_eq : sideChannelLeft exampleChannel exampleChannel =
    List.replicate exampleLen 0 := by
  unfold sideChannelLeft exampleChannel
  rw [List.zipWith_replicate]
  norm_num

theorem exampleSideRight_eq : sideChannelRight exampleChannel exampleChannel =
    List.replicate exampleLen 0 := by
  unfold sideChannelRight exampleChannel
  rw [List.zipWith_replicate]
  norm_num

theorem exampleVocals_eq : (stereoSeparate exampleChannel exampleChannel).1 =
    List.replicate exampleLen (1/2) := by
  show smoothChannel (centerChannel exampleChannel exampleChannel) = _
  rw [exampleCenter_eq, smoothChannel_replicate]

theorem exampleAccompLeft_eq :
    (stereoSeparate exampleChannel exampleChannel).2.2.1 =
      List.replicate exampleLen 0 := by
  show smoothChannel (sideChannelLeft exampleChannel exampleChannel) = _
  rw [exampleSideLeft_eq, smoothChannel_replicate]

theorem examplePeakVocals :
    channelPeak (List.replicate exampleLen ((1:ℚ)/2)) = 1/2 := by
  have h : exampleLen = 88199 + 1 := by norm_num [exampleLen]
  rw [h, channelPeak_replicate]
  norm_num

/-- C5 counterexample: in the spec's example scenario (left = right =
constant 0.5 over 2 seconds at 44100 Hz), the post-normalization peak of
the vocals channel is 0.5, not 0.9 as claimed — the Normalizer's gain
`min(1, 0.9/0.5) = 1` never amplifies. -/
theorem example_vocals_peak_counterexample :
    channelPeak (normalizeChannel
      (stereoSeparate exampleChannel exampleChannel).1) = 1/2 ∧
    ((1:ℚ)/2) ≠ 9/10 := by
  constructor
  · rw [exampleVocals_eq,
      normalizeChannel_of_peak_le _ (by rw [examplePeakVocals]; norm_num),
      examplePeakVocals]
  · norm_num

/-- C5 amended: in the example scenario the center signal is constant 0.5
and both side signals constant 0; the vocal channels come out of the
smoothing as constant 0.5 and the accompaniment channels as constant 0;
normalization leaves the vocals untouched (gain `min(1, 0.9/0.5) = 1`),
so the post-normalization vocals peak is 0.5, and the accompaniment
channels have peak 0 and are untouched (gain skipped). -/
theorem example_scenario_amended :
    centerChannel exampleChannel exampleChannel =
      List.replicate exampleLen (1/2) ∧
    sideChannelLeft exampleChannel exampleChannel =
      List.replicate exampleLen 0 ∧
    sideChannelRight exampleChannel exampleChannel =
      List.replicate exampleLen 0 ∧
    (stereoSeparate exampleChannel exampleChannel).1 =
      List.replicate exampleLen (1/2) ∧
    (stereoSeparate exampleChannel exampleChannel).2.1 =
      List.replicate exampleLen (1/2) ∧
    (stereoSeparate exampleChannel exampleChannel).2.2.1 =
      List.replicate exampleLen 0 ∧
    (stereoSeparate exampleChannel exampleChannel).2.2.2 =
      List.replicate exampleLen 0 ∧
    normalizeChannel (stereoSeparate exampleChannel exampleChannel).1 =
      (stereoSeparate exampleChannel exampleChannel).1 ∧
    channelPeak (normalizeChannel
      (stereoSeparate exampleChannel exampleChannel).1) = 1/2 ∧
    normalizeChannel (stereoSeparate exampleChannel exampleChannel).2.2.1 =
      (stereoSeparate exampleChannel exampleChannel).2.2.1 ∧
    channelPeak (normalizeChannel
      (stereoSeparate exampleChannel exampleChannel).2.2.1) = 0 := by
  have hvoc := exampleVocals_eq
  have hvocR : (stereoSeparate exampleChannel exampleChannel).2.1 =
      List.replicate exampleLen (1/2) := by
    show smoothChannel (centerChannel exampleChannel exampleChannel) = _
    rw [exampleCenter_eq, smoothChannel_replicate]
  have haccR : (stereoSeparate exampleChannel exampleChannel).2.2.2 =
      List.replicate exampleLen 0 := by
    show smoothChannel (sideChannelRight exampleChannel exampleChannel) = _
    rw [exampleSideRight_eq, smoothChannel_replicate]
  have hpeak0 : channelPeak (List.replicate exampleLen (0:ℚ)) = 0 := by
    have h : exampleLen = 88199 + 1 := by norm_num [exampleLen]
    rw [h, channelPeak_replicate]
    norm_num
  have hnv : normalizeChannel (stereoSeparate exampleChannel exampleChannel).1 =
      (stereoSeparate exampleChannel exampleChannel).1 := by
    apply normalizeChannel_of_peak_le
    rw [hvoc, examplePeakVocals]
    norm_num
  have hna : normalizeChannel
      (stereoSeparate exampleChannel exampleChannel).2.2.1 =
      (stereoSeparate exampleChannel exampleChannel).2.2.1 := by
    apply normalizeChannel_of_peak_le
    rw [exampleAccompLeft_eq, hpeak0]
    norm_num
  refine ⟨exampleCenter_eq, exampleSideLeft_eq, exampleSideRight_eq,
    hvoc, hvocR, exampleAccompLeft_eq, haccR, hnv, ?_, hna, ?_⟩
  · rw [hnv, hvoc, examplePeakVocals]
  · rw [hna, exampleAccompLeft_eq, hpeak0]

/-! ## Container Encoder (lines 346–419)

`audioBufferToBase64` dispatches on the requested format tag;
`audioBufferToWavBase64` builds a 44-byte RIFF/WAVE header followed by
interleaved clamped 16-bit little-endian samples; `audioBufferToMp3Base64`
deterministically falls back to the wav encoder (lines 410–419).  The
final base64 step (`btoa`, lines 400–407) is a fixed injective encoding of
the byte buffer, so the claims are modelled at the byte-buffer level. -/

/-- The two requested output format tags. -/
inductive AudioFormat
  | wav
  | mp3
  deriving DecidableEq, Repr

/-- The buffer's `length` field; the SampleMatrix invariant makes every
channel this long, so it is read off channel 0. -/
def matrixLen (m : SampleMatrix) : ℕ := (m.channels.headD []).length

/-- Little-endian bytes written by `view.setUint16` (value taken mod 2^16). -/
def u16le (v : ℕ) : List ℕ := [v % 256, v / 256 % 256]

/-- Little-endian bytes written by `view.setUint32` (value taken mod 2^32). -/
def u32le (v : ℕ) : List ℕ :=
  [v % 256, v / 256 % 256, v / 65536 % 256, v / 16777216 % 256]

/-- JavaScript ToInteger as used by `setInt16`: truncation toward zero. -/
def jsTruncInt (q : ℚ) : ℤ := if 0 ≤ q then ⌊q⌋ else ⌈q⌉

/-- `view.setInt16(offset, sample * 0x7fff, true)` after the clamp
`Math.max(-1, Math.min(1, x))` (lines 391–395): two little-endian bytes of
the 16-bit two's-complement value. -/
def sampleBytes (x : ℚ) : List ℕ :=
  let v := jsTruncInt (max (-1) (min 1 x) * 32767)
  let u := (v % 65536).toNat
  [u % 256, u / 256]

/-- The interleaved data section (lines 388–398): samples ordered by frame
index, then by channel within a frame. -/
def wavDataBytes (m : SampleMatrix) : List ℕ :=
  (List.range (matrixLen m)).flatMap (fun i =>
    (List.range m.channels.length).flatMap (fun ch =>
      sampleBytes ((m.channels.getD ch []).getD i 0)))

/-- `audioBufferToWavBase64` (lines 357–408) at the byte level: the 44-byte
header in write order (lines 373–385) followed by the data section. -/
def audioBufferToWavBytes (m : SampleMatrix) : List ℕ :=
  [82, 73, 70, 70] ++
  u32le (36 + matrixLen m * m.channels.length * 2) ++
  [87, 65, 86, 69] ++
  [102, 109, 116, 32] ++
  u32le 16 ++
  u16le 1 ++
  u16le m.channels.length ++
  u32le m.sampleRate ++
  u32le (m.sampleRate * m.channels.length * 2) ++
  u16le (m.channels.length * 2) ++
  u16le 16 ++
  [100, 97, 116, 97] ++
  u32le (matrixLen m * m.channels.length * 2) ++
  wavDataBytes m

/-- `audioBufferToMp3Base64` (lines 410–419): logs and deterministically
produces the wav byte buffer (no browser mp3 path). -/
def audioBufferToMp3Bytes (m : SampleMatrix) : List ℕ := audioBufferToWavBytes m

/-- `audioBufferToBase64` (lines 346–355): dispatch on the format tag. -/
def audioBufferToBytes (m : SampleMatrix) : AudioFormat → List ℕ
  | AudioFormat.wav => audioBufferToWavBytes m
  | AudioFormat.mp3 => audioBufferToMp3Bytes m

/-- 16-bit little-endian field read at a byte offset. -/
def readU16 (b : List ℕ) (off : ℕ) : ℕ :=
  b.getD off 0 + 256 * b.getD (off + 1) 0

/-- 32-bit little-endian field read at a byte offset. -/
def readU32 (b : List ℕ) (off : ℕ) : ℕ :=
  b.getD off 0 + 256 * b.getD (off + 1) 0 + 65536 * b.getD (off + 2) 0 +
    16777216 * b.getD (off + 3) 0

/-- Modelled from the spec: what it means for a byte buffer to parse as a
standard uncompressed PCM wav container (§4.5): RIFF marker with
consistent chunk size, WAVE and `fmt ` markers, fmt chunk of size 16 with
PCM format code 1, at least one channel, byte rate = sampleRate·channels·2,
block align = channels·2, 16-bit depth, and a data chunk whose declared
length fills the rest of the buffer. -/
def isValidWav (b : List ℕ) : Prop :=
  b.take 4 = [82, 73, 70, 70] ∧
  readU32 b 4 = 36 + readU32 b 40 ∧
  (b.drop 8).take 4 = [87, 65, 86, 69] ∧
  (b.drop 12).take 4 = [102, 109, 116, 32] ∧
  readU32 b 16 = 16 ∧
  readU16 b 20 = 1 ∧
  1 ≤ readU16 b 22 ∧
  readU32 b 28 = readU32 b 24 * readU16 b 22 * 2 ∧
  readU16 b 32 = readU16 b 22 * 2 ∧
  readU16 b 34 = 16 ∧
  (b.drop 36).take 4 = [100, 97, 116, 97] ∧
  b.length = 44 + readU32 b 40

theorem sampleBytes_length (x : ℚ) : (sampleBytes x).length = 2 := rfl

theorem wavDataBytes_length (m : SampleMatrix) :
    (wavDataBytes m).length = matrixLen m * m.channels.length * 2 := by
  unfold wavDataBytes
  rw [List.length_flatMap]
  have hinner : ∀ i : ℕ,
      ((List.range m.channels.length).flatMap (fun ch =>
        sampleBytes ((m.channels.getD ch []).getD i 0))).length =
      m.channels.length * 2 := by
    intro i
    rw [List.length_flatMap]
    have hmap : List.map
        (List.length ∘ fun ch => sampleBytes ((m.channels.getD ch []).getD i 0))
        (List.range m.channels.length) =
        List.map (fun _ => 2) (List.range m.channels.length) :=
      List.map_congr_left (fun a _ => rfl)
    rw [hmap, List.map_const', List.sum_replicate, smul_eq_mul,
      List.length_range]
  have hmap2 : List.map
      (List.length ∘ fun i => (List.range m.channels.length).flatMap (fun ch =>
        sampleBytes ((m.channels.getD ch []).getD i 0)))
      (List.range (matrixLen m)) =
      List.map (fun _ => m.channels.length * 2) (List.range (matrixLen m)) :=
    List.map_congr_left (fun i _ => hinner i)
  rw [hmap2, List.map_const', List.sum_replicate, smul_eq_mul,
    List.length_range]
  ring

/-- C6: For every SampleMatrix (with in-range channel count, sample rate
and size fields), requesting the `mp3` format tag returns byte-for-byte the
buffer of the `wav` request, and those bytes parse as a valid wav
container. -/
theorem mp3_request_returns_valid_wav (m : SampleMatrix)
    (hC1 : 1 ≤ m.channels.length)
    (hC : m.channels.length < 32768)
    (hsr : m.sampleRate < 4294967296)
    (hbr : m.sampleRate * m.channels.length * 2 < 4294967296)
    (hL : 36 + matrixLen m * m.channels.length * 2 < 4294967296) :
    audioBufferToBytes m AudioFormat.mp3 = audioBufferToBytes m AudioFormat.wav ∧
    isValidWav (audioBufferToBytes m AudioFormat.mp3) := by
  constructor
  · rfl
  · have hdata := wavDataBytes_length m
    show isValidWav (audioBufferToWavBytes m)
    unfold isValidWav audioBufferToWavBytes u32le u16le
    refine ⟨?_, ?_, ?_, ?_, ?_, ?_, ?_, ?_, ?_, ?_, ?_, ?_⟩
    · simp
    · unfold readU32
      simp only [List.cons_append, List.nil_append, List.getD_cons_succ,
        List.getD_cons_zero]
      omega
    · simp
    · simp
    · unfold readU32
      simp only [List.cons_append, List.nil_append, List.getD_cons_succ,
        List.getD_cons_zero]
    · unfold readU16
      simp only [List.cons_append, List.nil_append, List.getD_cons_succ,
        List.getD_cons_zero]
    · unfold readU16
      simp only [List.cons_append, List.nil_append, List.getD_cons_succ,
        List.getD_cons_zero]
      omega
    · unfold readU32 readU16
      simp only [List.cons_append, List.nil_append, List.getD_cons_succ,
        List.getD_cons_zero]
      have h28 : m.sampleRate * m.channels.length * 2 % 256 +
          256 * (m.sampleRate * m.channels.length * 2 / 256 % 256) +
          65536 * (m.sampleRate * m.channels.length * 2 / 65536 % 256) +
          16777216 * (m.sampleRate * m.channels.length * 2 / 16777216 % 256) =
          m.sampleRate * m.channels.length * 2 := by omega
      have h24 : m.sampleRate % 256 + 256 * (m.sampleRate / 256 % 256) +
          65536 * (m.sampleRate / 65536 % 256) +
          16777216 * (m.sampleRate / 16777216 % 256) = m.sampleRate := by omega
      have h22 : m.channels.length % 256 +
          256 * (m.channels.length / 256 % 256) = m.channels.length := by omega
      rw [h28, h24, h22]
    · unfold readU16
      simp only [List.cons_append, List.nil_append, List.getD_cons_succ,
        List.getD_cons_zero]
      omega
    · unfold readU16
      simp only [List.cons_append, List.nil_append, List.getD_cons_succ,
        List.getD_cons_zero]
    · simp
    · unfold readU32
      simp only [List.cons_append, List.nil_append, List.getD_cons_succ,
        List.getD_cons_zero, List.length_append, List.length_cons,
        List.length_nil]
      omega

/-- Concrete one-sample, one-channel, 8000 Hz matrix for the C6 witness. -/
def exampleMatrix : SampleMatrix := { channels := [[1/2]], sampleRate := 8000 }

/-- Witness for C6 at the concrete one-sample matrix. -/
theorem mp3_request_returns_valid_wav_witness :
    (1 ≤ exampleMatrix.channels.length ∧
     exampleMatrix.channels.length < 32768 ∧
     exampleMatrix.sampleRate < 4294967296 ∧
     exampleMatrix.sampleRate * exampleMatrix.channels.length * 2 < 4294967296 ∧
     36 + matrixLen exampleMatrix * exampleMatrix.channels.length * 2 <
       4294967296) ∧
    (audioBufferToBytes exampleMatrix AudioFormat.mp3 =
      audioBufferToBytes exampleMatrix AudioFormat.wav ∧
     isValidWav (audioBufferToBytes exampleMatrix AudioFormat.mp3)) :=
  ⟨⟨by decide, by decide, by decide, by decide, by decide⟩,
    mp3_request_returns_valid_wav exampleMatrix (by decide) (by decide)
      (by decide) (by decide) (by decide)⟩

/-! ## Nonlinear Enhancer failure policy (lines 232–272)

The tensor enhancement only runs when the backend object is present
(`if (tf)`, line 232) and its body sits in a `try`/`catch` whose handler
logs and keeps the pre-transform buffers (lines 265–271).  The backend is
modelled abstractly: `none` is an unavailable backend, `some f` a loaded
backend whose transform `f` may fail (`Except.error`), covering both the
`tanh` path and any thrown fault. -/

/-- The four stereo-branch channels handed to the enhancement stage:
(vocalsLeft, vocalsRight, accompanimentLeft, accompanimentRight). -/
def StereoChannels : Type := List ℚ × List ℚ × List ℚ × List ℚ

/-- A tensor backend: a fallible transform on the four channels. -/
def Backend : Type := StereoChannels → Except String StereoChannels

/-- The enhancement stage (lines 232–272): skipped when no backend is
loaded; on a thrown fault the catch keeps the inputs unchanged. -/
def enhanceStage (backend : Option Backend) (chs : StereoChannels) :
    StereoChannels :=
  match backend with
  | none => chs
  | some f =>
      match f chs with
      | Except.ok out => out
      | Except.error _ => chs

/-- The stereo path of `extractVocals` end to end: separation (lines
179–229), enhancement (lines 232–272), then per-channel normalization
(lines 310–341), packaged as the two output matrices.  The function is
total: no fault of the enhancement stage escapes it. -/
def extractVocalsStereo (backend : Option Backend) (sampleRate : ℕ)
    (left right : List ℚ) : SampleMatrix × SampleMatrix :=
  let e := enhanceStage backend (stereoSeparate left right)
  (normalizeMatrix { channels := [e.1, e.2.1], sampleRate := sampleRate },
   normalizeMatrix { channels := [e.2.2.1, e.2.2.2], sampleRate := sampleRate })

/-- C7: If the enhancement step fails — the backend is unavailable or the
transform throws — the stage passes the pre-transform channels through
completely unchanged, and the whole stereo extraction produces exactly the
result of a run with no enhancement at all: the failure never aborts the
pipeline or surfaces as an error. -/
theorem enhancement_failure_passthrough (backend : Option Backend)
    (sampleRate : ℕ) (left right : List ℚ)
    (hfail : backend = none ∨ ∃ f e, backend = some f ∧
      f (stereoSeparate left right) = Except.error e) :
    enhanceStage backend (stereoSeparate left right) =
      stereoSeparate left right ∧
    extractVocalsStereo backend sampleRate left right =
      extractVocalsStereo none sampleRate left right := by
  have hpass : enhanceStage backend (stereoSeparate left right) =
      stereoSeparate left right := by
    rcases hfail with h | ⟨f, e, hb, he⟩
    · rw [h]; rfl
    · rw [hb]
      show (match f (stereoSeparate left right) with
        | Except.ok out => out
        | Except.error _ => stereoSeparate left right) = stereoSeparate left right
      rw [he]
  refine ⟨hpass, ?_⟩
  unfold extractVocalsStereo
  rw [hpass]
  rfl

/-- Witness for C7 with a backend whose transform always throws. -/
theorem enhancement_failure_passthrough_witness :
    ((some (fun _ => Except.error "tensor fault") : Option Backend) = none ∨
      ∃ f e, (some (fun _ => Except.error "tensor fault") : Option Backend) =
          some f ∧
        f (stereoSeparate [1] [0]) = Except.error e) ∧
    (enhanceStage (some (fun _ => Except.error "tensor fault"))
      (stereoSeparate [1] [0]) = stereoSeparate [1] [0] ∧
     extractVocalsStereo (some (fun _ => Except.error "tensor fault")) 44100
        [1] [0] =
      extractVocalsStereo none 44100 [1] [0]) :=
  ⟨Or.inr ⟨fun _ => Except.error "tensor fault", "tensor fault", rfl, rfl⟩,
    enhancement_failure_passthrough (some (fun _ => Except.error "tensor fault"))
      44100 [1] [0]
      (Or.inr ⟨fun _ => Except.error "tensor fault", "tensor fault", rfl, rfl⟩)⟩

/-! ## Extraction Orchestrator entry guards (lines 421–495)

The component state relevant to `handleExtractVocals` and the outcome of
its synchronous entry prefix (lines 421–446): the three reject paths and
the path that starts a run (reaching the decode kickoff at line 487). -/

/-- The component-scoped extraction state: the five fields of the claims
plus the backend-readiness flag `engineLoaded` read by the guard. -/
structure ExtractionState where
  inputFile : Option String
  isProcessing : Bool
  progress : ℕ
  error : Option String
  result : Option (String × String × String)
  engineLoaded : Bool
  deriving DecidableEq, Repr

/-- Outcome of one invocation of the entry point. -/
inductive ExtractOutcome
  | rejectedBusy
  | rejectedNoFile
  | rejectedEngineNotLoaded
  | started
  deriving DecidableEq, Repr

/-- Validation message of the missing-file guard (line 430). -/
def noFileMsg : String := "Please select an audio file"

/-- Validation message of the engine-readiness guard (lines 435–438). -/
def engineNotReadyMsg : String :=
  "Audio processing engine is not ready yet. Please wait a moment."

/-- The synchronous entry prefix of `handleExtractVocals` (lines 421–446):
a busy guard that returns untouched (lines 424–427), a missing-file guard
that only sets the error message (lines 429–432), an engine-readiness
guard that only sets the error message (lines 434–439), and otherwise the
state mutations that start a run (lines 442–445) before the decode begins
(line 487). -/
def handleExtractVocals (s : ExtractionState) :
    ExtractionState × ExtractOutcome :=
  if s.isProcessing then (s, ExtractOutcome.rejectedBusy)
  else if s.inputFile = none then
    ({ s with error := some noFileMsg }, ExtractOutcome.rejectedNoFile)
  else if s.engineLoaded = false then
    ({ s with error := some engineNotReadyMsg },
      ExtractOutcome.rejectedEngineNotLoaded)
  else
    ({ s with isProcessing := true, error := none, result := none, progress := 0 },
      ExtractOutcome.started)

/-- C8: Invoking the entry point while `isProcessing` is true returns
immediately with every state field (inputFile, isProcessing, progress,
error, result) unchanged and does not start a decode: overlapping run
requests are rejected, never queued. -/
theorem busy_reentry_is_rejected_unchanged (s : ExtractionState)
    (h : s.isProcessing = true) :
    handleExtractVocals s = (s, ExtractOutcome.rejectedBusy) ∧
    (handleExtractVocals s).1.inputFile = s.inputFile ∧
    (handleExtractVocals s).1.isProcessing = s.isProcessing ∧
    (handleExtractVocals s).1.progress = s.progress ∧
    (handleExtractVocals s).1.error = s.error ∧
    (handleExtractVocals s).1.result = s.result ∧
    (handleExtractVocals s).2 ≠ ExtractOutcome.started := by
  have hcall : handleExtractVocals s = (s, ExtractOutcome.rejectedBusy) := by
    unfold handleExtractVocals
    rw [h]
    rfl
  rw [hcall]
  refine ⟨rfl, rfl, rfl, rfl, rfl, rfl, ?_⟩
  intro hc
  exact ExtractOutcome.noConfusion hc

/-- Witness for C8 at a concrete busy state. -/
theorem busy_reentry_is_rejected_unchanged_witness :
    ((⟨some "song.mp3", true, 25, none, none, true⟩ :
        ExtractionState).isProcessing = true) ∧
    handleExtractVocals ⟨some "song.mp3", true, 25, none, none, true⟩ =
      (⟨some "song.mp3", true, 25, none, none, true⟩,
        ExtractOutcome.rejectedBusy) :=
  ⟨rfl, (busy_reentry_is_rejected_unchanged
    ⟨some "song.mp3", true, 25, none, none, true⟩ rfl).1⟩

/-- C9 counterexample: with no input file set (and the machine idle), the
entry point does change the extraction state — it writes a validation
message into the `error` field — so the claim that every field is left
exactly as it was in all three reject cases is false. -/
theorem entry_guard_state_change_counterexample :
    (handleExtractVocals ⟨none, false, 0, none, none, true⟩).1.error ≠
      (⟨none, false, 0, none, none, true⟩ : ExtractionState).error := by
  decide

/-- C9 amended: a run request is rejected (and no pipeline stage starts)
whenever the machine is busy, no input file is set, or the engine is not
loaded; the busy reject leaves every field unchanged, while the
missing-file and engine-not-ready rejects set only the `error` field to a
fixed message; in every reject case inputFile, isProcessing, progress and
result are left exactly as they were. -/
theorem entry_guard_amended (s : ExtractionState) :
    (s.isProcessing = true →
      handleExtractVocals s = (s, ExtractOutcome.rejectedBusy)) ∧
    (s.isProcessing = false → s.inputFile = none →
      handleExtractVocals s =
        ({ s with error := some noFileMsg }, ExtractOutcome.rejectedNoFile)) ∧
    (s.isProcessing = false → s.inputFile ≠ none → s.engineLoaded = false →
      handleExtractVocals s =
        ({ s with error := some engineNotReadyMsg },
          ExtractOutcome.rejectedEngineNotLoaded)) ∧
    ((handleExtractVocals s).2 ≠ ExtractOutcome.started →
      (handleExtractVocals s).1.inputFile = s.inputFile ∧
      (handleExtractVocals s).1.isProcessing = s.isProcessing ∧
      (handleExtractVocals s).1.progress = s.progress ∧
      (handleExtractVocals s).1.result = s.result) := by
  refine ⟨?_, ?_, ?_, ?_⟩
  · intro h
    unfold handleExtractVocals
    rw [h]
    rfl
  · intro h hf
    unfold handleExtractVocals
    rw [h, hf]
    rfl
  · intro h hf he
    unfold handleExtractVocals
    rw [h, he]
    simp [hf]
  · intro hns
    unfold handleExtractVocals at hns ⊢
    by_cases h1 : s.isProcessing
    · rw [if_pos h1]
      exact ⟨rfl, rfl, rfl, rfl⟩
    · rw [if_neg h1]
      rw [if_neg h1] at hns
      by_cases h2 : s.inputFile = none
      · rw [if_pos h2]
        exact ⟨rfl, rfl, rfl, rfl⟩
      · rw [if_neg h2]
        rw [if_neg h2] at hns
        by_cases h3 : s.engineLoaded = false
        · rw [if_pos h3]
          exact ⟨rfl, rfl, rfl, rfl⟩
        · rw [if_neg h3] at hns
          exact absurd rfl hns

/-- Witness for C9 (amended) at the concrete idle state with no file. -/
theorem entry_guard_amended_witness :
    handleExtractVocals ⟨none, false, 0, none, none, true⟩ =
      ({ (⟨none, false, 0, none, none, true⟩ : ExtractionState) with
          error := some noFileMsg },
        ExtractOutcome.rejectedNoFile) :=
  (entry_guard_amended ⟨none, false, 0, none, none, true⟩).2.1 rfl rfl

end VocalExtraction
